import Mathlib

/-!
Verification development for the Croo output reorganization engine
(`src/croo/croo.py`).

The development shallowly embeds the two pieces of engineering-hard logic:

* `Croo.__interpret_inline_exp` — the inline-expression template interpreter
  (a `re.search`/`str.replace` loop around Python `eval`);
* `Croo.organize_output` — the output matcher that walks the output
  definition document and the task graph and produces placements, file-table
  entries and UCSC track entries.

Python strings are embedded as `String`/`List Char`, Python integers as
`Int`, tuples of scatter indices as `List Int`.  The `while True:` loop of
the interpreter is embedded with explicit fuel (it genuinely need not
terminate, see the theorems about claim C3).  External collaborators
(CaperURI copy / URL resolution, the HTML report) are modelled as an opaque
sink record of pure functions, as the spec declares them external.
-/

deriving instance DecidableEq for Except

namespace CrooSpec

/-! ## Python decimal rendering of integers (`str(int)`) -/

/-- Decimal digit characters, as produced by Python's `str` on integers. -/
def digitChar (n : Nat) : Char :=
  if n = 0 then '0' else if n = 1 then '1' else if n = 2 then '2'
  else if n = 3 then '3' else if n = 4 then '4' else if n = 5 then '5'
  else if n = 6 then '6' else if n = 7 then '7' else if n = 8 then '8'
  else if n = 9 then '9' else '*'

/-- Decimal digit list, most significant digit first, with structural fuel
(`fuel ≥ n` always suffices, since `n` has at most `n + 1` digits). -/
def natDigitsCore : Nat → Nat → List Char
  | 0, n => [digitChar (n % 10)]
  | fuel + 1, n =>
      if n < 10 then [digitChar n]
      else natDigitsCore fuel (n / 10) ++ [digitChar (n % 10)]

/-- Decimal digit list of a natural number, most significant digit first
(the digit sequence `str(n)` produces in Python). -/
def natDigits (n : Nat) : List Char := natDigitsCore n n

/-- Python `str` on an `int`: optional minus sign followed by the decimal
digits. -/
def pyIntStr (n : Int) : String :=
  if n < 0 then String.mk ('-' :: natDigits (-n).toNat)
  else String.mk (natDigits n.toNat)

/-- Python `str` on a tuple of ints: `"()"`, `"(5,)"`, `"(0, -1, -1)"`. -/
def pyTupleStr (l : List Int) : String :=
  match l with
  | [] => "()"
  | [x] => "(" ++ pyIntStr x ++ ",)"
  | _ => "(" ++ String.intercalate ", " (l.map pyIntStr) ++ ")"

/-! ## `os.path.basename` / `os.path.dirname` (posixpath) -/

/-- Split a character list at the last `'/'`: returns the head part
(including the final `'/'`) and the tail after it.  Mirrors
`p[:p.rfind('/')+1]` and `p[p.rfind('/')+1:]`; when no `'/'` occurs the
head part is empty. -/
def splitLastSlash : List Char → List Char × List Char
  | [] => ([], [])
  | c :: rest =>
      if rest.contains '/' then
        let p := splitLastSlash rest
        (c :: p.1, p.2)
      else if c = '/' then ([c], rest)
      else ([], c :: rest)

/-- `os.path.basename` (posixpath): everything after the last `'/'`. -/
def pyBasename (p : String) : String :=
  String.mk (splitLastSlash p.data).2

/-- Drop trailing `'/'` characters (`head.rstrip('/')`). -/
def rstripSlashes : List Char → List Char
  | [] => []
  | c :: rest =>
      let t := rstripSlashes rest
      if c = '/' ∧ t = [] then [] else c :: t

/-- `os.path.dirname` (posixpath): the part before the last `'/'`;
trailing slashes are stripped unless the head is empty or consists only of
slashes. -/
def pyDirname (p : String) : String :=
  let h := (splitLastSlash p.data).1
  if h = [] ∨ h.all (fun c => c == '/') then String.mk h
  else String.mk (rstripSlashes h)

/-- Does the string start with `'/'` (`b.startswith('/')`)? -/
def headIsSlash (cs : List Char) : Bool :=
  match cs with
  | '/' :: _ => true
  | _ => false

/-- Does the string end with `'/'` (`a.endswith('/')`)? -/
def lastIsSlash (cs : List Char) : Bool :=
  match cs.getLast? with
  | Option.some '/' => true
  | _ => false

/-- `os.path.join(a, b)` (posixpath) for the two-argument case used by the
source: an absolute `b` wins; otherwise the components are joined with a
single `'/'` unless `a` is empty or already ends in `'/'`. -/
def osPathJoin (a b : String) : String :=
  if headIsSlash b.data then b
  else if a.data = [] ∨ lastIsSlash a.data then a ++ b
  else a ++ "/" ++ b

/-! ## The regex `r'\$\{(.*?)\}'` and `str.replace(old, new, 1)`

`re.search` finds the leftmost position where `"${"` is followed by a
closing `'}'` (lazily: the first `'}'` after the opening, with no
intervening newline, since `.` does not match `'\n'`).
-/

/-- Lazy search for the closing brace: split at the first `'}'`, failing if
a `'\n'` (which `.` does not match) is hit first or the list ends. -/
def findCloseBrace : List Char → Option (List Char × List Char)
  | [] => Option.none
  | c :: rest =>
      if c = '}' then Option.some ([], rest)
      else if c = '\n' then Option.none
      else
        match findCloseBrace rest with
        | Option.some p => Option.some (c :: p.1, p.2)
        | Option.none => Option.none

/-- Attempt to match `\$\{(.*?)\}` at the very start of the list; returns
the group-1 content and the remainder after the closing brace. -/
def startMatch (cs : List Char) : Option (List Char × List Char) :=
  match cs with
  | c1 :: c2 :: rest =>
      if c1 = '$' ∧ c2 = '{' then findCloseBrace rest else Option.none
  | _ => Option.none

/-- `re.search(r'\$\{(.*?)\}', cs)`: leftmost match, decomposed as
`(prefix, group1, suffix)` with `cs = prefix ++ "${" ++ group1 ++ "}" ++
suffix` and no earlier match start. -/
def findInline : List Char → Option (List Char × List Char × List Char)
  | [] => Option.none
  | c :: rest =>
      match startMatch (c :: rest) with
      | Option.some p => Option.some ([], p.1, p.2)
      | Option.none =>
          match findInline rest with
          | Option.some q => Option.some (c :: q.1, q.2.1, q.2.2)
          | Option.none => Option.none

/-- Does the list start with the two characters `"${"`? -/
def startsDB (cs : List Char) : Bool :=
  match cs with
  | c1 :: c2 :: _ => c1 = '$' && c2 = '{'
  | _ => false

/-- Does the list contain the two-character sequence `"${"` anywhere? -/
def containsDB : List Char → Bool
  | [] => false
  | c :: rest => startsDB (c :: rest) || containsDB rest

/-- `cs.replace(pat, repl, 1)` for a non-empty `pat`: replace the first
occurrence of `pat`, leaving `cs` unchanged when `pat` does not occur. -/
def replaceFirst (cs pat repl : List Char) : List Char :=
  match cs with
  | [] => []
  | c :: rest =>
      if pat.isPrefixOf (c :: rest) then repl ++ (c :: rest).drop pat.length
      else c :: replaceFirst rest pat repl

/-! ## Python values appearing in the interpreter scope -/

/-- The Python values that the modelled fragment of `eval` can produce
inside `__interpret_inline_exp`: ints, strings, `None`, the scatter-index
tuple, and built-in function objects such as `len`. -/
inductive PyVal where
  | int (n : Int)
  | str (s : String)
  | none
  | tuple (l : List Int)
  | bfun (name : String)
deriving DecidableEq

/-- Python `str()` of a `PyVal` (exactly what
`str(eval(m.group(1)))` produces for the modelled values). -/
def pyStrOf : PyVal → String
  | PyVal.int n => pyIntStr n
  | PyVal.str s => s
  | PyVal.none => "None"
  | PyVal.tuple l => pyTupleStr l
  | PyVal.bfun n => "<built-in function " ++ n ++ ">"

/-- Turn the `i`/`j`/`k` bindings (which Python holds as `int` or `None`)
into a `PyVal`. -/
def optIntVal : Option Int → PyVal
  | Option.some n => PyVal.int n
  | Option.none => PyVal.none

/-! ## The local scope of `__interpret_inline_exp` -/

/-- The local variables of `Croo.__interpret_inline_exp` that are in scope
when `eval(m.group(1))` runs (besides the mutating `result`, which is
passed separately).  `i`, `j`, `k` are `int` when the scatter index at
that nesting level exists and is `≥ 0`, else `None`. -/
structure ExpScope where
  s : String
  full_path : String
  shard_idx : List Int
  i : Option Int
  j : Option Int
  k : Option Int
  basename : String
  dirname : String
deriving DecidableEq

/-- The binding prologue of `__interpret_inline_exp`.  `shard_idx[0]` is
read unconditionally, so the empty tuple raises `IndexError` (returns
`none`); positions 1 and 2 are read only behind `len(shard_idx) > 1` /
`len(shard_idx) > 2` guards. -/
def mkScope (s full_path : String) (shard_idx : List Int) : Option ExpScope :=
  match shard_idx with
  | [] => Option.none
  | s0 :: _ =>
      Option.some
        { s := s
          full_path := full_path
          shard_idx := shard_idx
          i := if s0 > -1 then Option.some s0 else Option.none
          j :=
            if h : 1 < shard_idx.length then
              if shard_idx.get ⟨1, h⟩ > -1 then Option.some (shard_idx.get ⟨1, h⟩)
              else Option.none
            else Option.none
          k :=
            if h : 2 < shard_idx.length then
              if shard_idx.get ⟨2, h⟩ > -1 then Option.some (shard_idx.get ⟨2, h⟩)
              else Option.none
            else Option.none
          basename := pyBasename full_path
          dirname := pyDirname full_path }

/-- Outcome of one `eval(m.group(1))` call. -/
inductive EvalOut where
  | val (v : PyVal)
  | nameErr
  | unmodelled
deriving DecidableEq

/-- Modelled fragment of Python `eval(expr)` as it runs inside
`__interpret_inline_exp`.  `eval` sees the function's locals (`s`,
`full_path`, `shard_idx`, `i`, `j`, `k`, `basename`, `dirname`, `result`),
the module globals, and the builtins.  We model:

* lookups of the nine local identifiers, returning their values;
* the builtin `len` (any other builtin or module global, and any
  non-identifier expression, is reported as `unmodelled` — the source would
  evaluate it, but no claim depends on it);
* the identifier `foo`, which is bound in no scope, so `eval` raises
  `NameError` (a fatal, uncaught error in the source). -/
def evalExp (e : String) (sc : ExpScope) (result : String) : EvalOut :=
  if e = "i" then EvalOut.val (optIntVal sc.i)
  else if e = "j" then EvalOut.val (optIntVal sc.j)
  else if e = "k" then EvalOut.val (optIntVal sc.k)
  else if e = "basename" then EvalOut.val (PyVal.str sc.basename)
  else if e = "dirname" then EvalOut.val (PyVal.str sc.dirname)
  else if e = "full_path" then EvalOut.val (PyVal.str sc.full_path)
  else if e = "shard_idx" then EvalOut.val (PyVal.tuple sc.shard_idx)
  else if e = "s" then EvalOut.val (PyVal.str sc.s)
  else if e = "result" then EvalOut.val (PyVal.str result)
  else if e = "len" then EvalOut.val (PyVal.bfun "len")
  else if e = "foo" then EvalOut.nameErr
  else EvalOut.unmodelled

/-- Errors that abort `__interpret_inline_exp`: a `NameError` from `eval`,
an `IndexError` from reading `shard_idx[0]` on an empty tuple, or an
expression outside the modelled `eval` fragment. -/
inductive InterpErr where
  | nameErr
  | indexErr
  | unmodelled
deriving DecidableEq

/-- Result of one iteration of the `while True:` loop. -/
inductive StepRes where
  | finished (r : List Char)
  | again (r : List Char)
  | failed (e : InterpErr)
deriving DecidableEq

/-- One iteration of the loop body: search for `\$\{(.*?)\}` in `result`
(loop exits when there is no match), evaluate group 1 in the scope, and
`result.replace(m.group(0), str(value), 1)`. -/
def interpStep (sc : ExpScope) (result : List Char) : StepRes :=
  match findInline result with
  | Option.none => StepRes.finished result
  | Option.some m =>
      match evalExp (String.mk m.2.1) sc (String.mk result) with
      | EvalOut.val v =>
          StepRes.again
            (replaceFirst result ('$' :: '{' :: (m.2.1 ++ ['}'])) (pyStrOf v).data)
      | EvalOut.nameErr => StepRes.failed InterpErr.nameErr
      | EvalOut.unmodelled => StepRes.failed InterpErr.unmodelled

/-- The `while True:` loop, with explicit fuel (`Option.none` = fuel
exhausted, i.e. the modelled run has not finished within `fuel`
iterations). -/
def interpLoop (sc : ExpScope) : Nat → List Char → Option (Except InterpErr (List Char))
  | 0, _ => Option.none
  | n + 1, r =>
      match interpStep sc r with
      | StepRes.finished r2 => Option.some (Except.ok r2)
      | StepRes.failed e => Option.some (Except.error e)
      | StepRes.again r2 => interpLoop sc n r2

/-- `Croo.__interpret_inline_exp(s, full_path, shard_idx)`: bind the local
scope (raising `IndexError` on an empty scatter tuple), then run the
substitution loop on `s`. -/
def interpret_inline_exp (fuel : Nat) (s full_path : String)
    (shard_idx : List Int) : Option (Except InterpErr String) :=
  match mkScope s full_path shard_idx with
  | Option.none => Option.some (Except.error InterpErr.indexErr)
  | Option.some sc =>
      match interpLoop sc fuel s.data with
      | Option.none => Option.none
      | Option.some (Except.ok r) => Option.some (Except.ok (String.mk r))
      | Option.some (Except.error e) => Option.some (Except.error e)

/-- The interpreter terminates on the given input: some amount of fuel
suffices to produce an outcome (normal or error). -/
def InterpTerminates (s full_path : String) (shard_idx : List Int) : Prop :=
  ∃ fuel out, interpret_inline_exp fuel s full_path shard_idx = Option.some out

/-- The interpreter raises an error (of any kind) on the given input. -/
def InterpRaises (s full_path : String) (shard_idx : List Int) : Prop :=
  ∃ fuel e,
    interpret_inline_exp fuel s full_path shard_idx = Option.some (Except.error e)

/-! ## Basic lemmas about the interpreter loop -/

theorem string_mk_data (s : String) : String.mk s.data = s := rfl

theorem interpLoop_le {sc : ExpScope} {n m : Nat} {cs : List Char}
    {out : Except InterpErr (List Char)} (h : interpLoop sc n cs = Option.some out)
    (hnm : n ≤ m) : interpLoop sc m cs = Option.some out := by
  induction n generalizing cs m with
  | zero => simp [interpLoop] at h
  | succ n ih =>
    cases m with
    | zero => omega
    | succ m =>
      rw [interpLoop] at h ⊢
      cases hs : interpStep sc cs with
      | finished r2 => rw [hs] at h; exact h
      | failed e => rw [hs] at h; exact h
      | again r2 => rw [hs] at h; exact ih h (by omega)

theorem interpret_mono {fuel fuel2 : Nat} {s p : String} {si : List Int}
    {out : Except InterpErr String}
    (h : interpret_inline_exp fuel s p si = Option.some out) (hle : fuel ≤ fuel2) :
    interpret_inline_exp fuel2 s p si = Option.some out := by
  rw [interpret_inline_exp] at h ⊢
  cases hsc : mkScope s p si with
  | none => simp only [hsc] at h ⊢; exact h
  | some sc =>
    simp only [hsc] at h ⊢
    cases hl : interpLoop sc fuel s.data with
    | none => simp only [hl] at h; simp at h
    | some r =>
      simp only [hl] at h
      rw [interpLoop_le hl hle]
      exact h

/-- If one loop iteration maps `r` back to itself (still wanting another
pass), the loop never produces an outcome: the source spins forever. -/
theorem interpLoop_fix {sc : ExpScope} {r : List Char}
    (h : interpStep sc r = StepRes.again r) :
    ∀ n, interpLoop sc n r = Option.none := by
  intro n
  induction n with
  | zero => rfl
  | succ n ih => rw [interpLoop, h]; exact ih

theorem interpStep_finished {sc : ExpScope} {cs r : List Char}
    (h : interpStep sc cs = StepRes.finished r) :
    findInline cs = Option.none ∧ r = cs := by
  rw [interpStep] at h
  cases hf : findInline cs with
  | none => simp only [hf] at h; cases h; exact ⟨rfl, rfl⟩
  | some m =>
    simp only [hf] at h
    cases hev : evalExp (String.mk m.2.1) sc (String.mk cs) with
    | val v => simp only [hev] at h; cases h
    | nameErr => simp only [hev] at h; cases h
    | unmodelled => simp only [hev] at h; cases h

/-- A normal result of the loop contains no remaining `${...}` match: the
loop only exits when `re.search` fails. -/
theorem interpLoop_ok_no_match {sc : ExpScope} {n : Nat} {cs r : List Char}
    (h : interpLoop sc n cs = Option.some (Except.ok r)) :
    findInline r = Option.none := by
  induction n generalizing cs with
  | zero => simp [interpLoop] at h
  | succ n ih =>
    rw [interpLoop] at h
    cases hs : interpStep sc cs with
    | finished r2 =>
      rw [hs] at h
      cases h
      obtain ⟨hf, hr⟩ := interpStep_finished hs
      rw [hr]; exact hf
    | failed e => rw [hs] at h; simp at h
    | again r2 => rw [hs] at h; exact ih h

theorem isPrefixOf_rfl (l : List Char) : l.isPrefixOf l = true := by
  induction l with
  | nil => rfl
  | cons c t ih => simp [List.isPrefixOf, ih]

theorem replaceFirst_self (cs repl : List Char) (h : cs ≠ []) :
    replaceFirst cs cs repl = repl := by
  cases cs with
  | nil => exact absurd rfl h
  | cons c rest =>
    rw [replaceFirst, if_pos (isPrefixOf_rfl (c :: rest))]
    simp

/-- Running the loop on a template that is a single `${id}` placeholder
whose identifier evaluates to `v`, when the substituted text itself has no
placeholder: two iterations finish with `str(v)`. -/
theorem interpLoop_single (sc : ExpScope) (id : String) (v : PyVal)
    (hfc : findCloseBrace (id.data ++ ['}']) = Option.some (id.data, []))
    (hev : ∀ r, evalExp id sc r = EvalOut.val v)
    (hnf : findInline (pyStrOf v).data = Option.none) :
    interpLoop sc 2 ('$' :: '{' :: (id.data ++ ['}'])) =
      Option.some (Except.ok (pyStrOf v).data) := by
  have hfi : findInline ('$' :: '{' :: (id.data ++ ['}'])) =
      Option.some ([], id.data, []) := by
    rw [findInline, startMatch, if_pos ⟨rfl, rfl⟩, hfc]
  have hstep : interpStep sc ('$' :: '{' :: (id.data ++ ['}'])) =
      StepRes.again (pyStrOf v).data := by
    rw [interpStep]
    simp only [hfi, string_mk_data, hev]
    rw [replaceFirst_self _ _ (by simp)]
  have hstep2 : interpStep sc (pyStrOf v).data =
      StepRes.finished (pyStrOf v).data := by
    rw [interpStep]
    simp only [hnf]
  have e1 : interpLoop sc 2 ('$' :: '{' :: (id.data ++ ['}'])) =
      interpLoop sc 1 (pyStrOf v).data := by
    have hd : interpLoop sc 2 ('$' :: '{' :: (id.data ++ ['}'])) =
        (match interpStep sc ('$' :: '{' :: (id.data ++ ['}'])) with
          | StepRes.finished r2 => Option.some (Except.ok r2)
          | StepRes.failed e => Option.some (Except.error e)
          | StepRes.again r2 => interpLoop sc 1 r2) := rfl
    rw [hd, hstep]
  have e2 : interpLoop sc 1 (pyStrOf v).data =
      Option.some (Except.ok (pyStrOf v).data) := by
    have hd : interpLoop sc 1 (pyStrOf v).data =
        (match interpStep sc (pyStrOf v).data with
          | StepRes.finished r2 => Option.some (Except.ok r2)
          | StepRes.failed e => Option.some (Except.error e)
          | StepRes.again r2 => interpLoop sc 0 r2) := rfl
    rw [hd, hstep2]
  exact e1.trans e2

/-! ## `"${"` occurrence lemmas -/

theorem startsDB_two (a b : Char) (l : List Char) :
    startsDB (a :: b :: l) = (a = '$' && b = '{') := rfl

theorem startsDB_one (a : Char) : startsDB [a] = false := rfl

theorem startMatch_of_not_startsDB {cs : List Char} (h : startsDB cs = false) :
    startMatch cs = Option.none := by
  cases cs with
  | nil => rfl
  | cons c rest =>
    cases rest with
    | nil => rfl
    | cons c2 r2 =>
      rw [startMatch]
      rw [startsDB_two] at h
      rw [if_neg]
      intro hcontra
      simp [hcontra.1, hcontra.2] at h

theorem containsDB_cons (c : Char) (rest : List Char) :
    containsDB (c :: rest) = (startsDB (c :: rest) || containsDB rest) := rfl

theorem findInline_of_not_containsDB {cs : List Char} (h : containsDB cs = false) :
    findInline cs = Option.none := by
  induction cs with
  | nil => rfl
  | cons c rest ih =>
    rw [containsDB_cons, Bool.or_eq_false_iff] at h
    rw [findInline, startMatch_of_not_startsDB h.1, ih h.2]

theorem not_containsDB_of_no_dollar {cs : List Char}
    (h : ∀ c ∈ cs, c ≠ '$') : containsDB cs = false := by
  induction cs with
  | nil => rfl
  | cons c rest ih =>
    rw [containsDB_cons, Bool.or_eq_false_iff]
    refine ⟨?_, ih fun c hc => h c (List.mem_cons_of_mem _ hc)⟩
    have hc : c ≠ '$' := h c (List.mem_cons_self _ _)
    cases rest with
    | nil => rfl
    | cons c2 r2 =>
      rw [startsDB_two]
      simp [hc]

theorem startsDB_append {c : Char} {xs : List Char} (ys : List Char)
    (h : startsDB (c :: xs) = true) : startsDB (c :: (xs ++ ys)) = true := by
  cases xs with
  | nil => rw [startsDB_one] at h; cases h
  | cons x t =>
    rw [startsDB_two] at h
    simp only [List.cons_append]
    rw [startsDB_two]
    exact h

theorem containsDB_append {xs ys : List Char}
    (h : containsDB (xs ++ ys) = false) :
    containsDB xs = false ∧ containsDB ys = false := by
  induction xs with
  | nil => exact ⟨rfl, h⟩
  | cons c xt ih =>
    rw [List.cons_append, containsDB_cons, Bool.or_eq_false_iff] at h
    obtain ⟨h1, h2⟩ := h
    obtain ⟨hxt, hys⟩ := ih h2
    refine ⟨?_, hys⟩
    rw [containsDB_cons, Bool.or_eq_false_iff]
    refine ⟨?_, hxt⟩
    cases hs : startsDB (c :: xt) with
    | false => rfl
    | true => rw [startsDB_append ys hs] at h1; cases h1

theorem splitLastSlash_append (cs : List Char) :
    (splitLastSlash cs).1 ++ (splitLastSlash cs).2 = cs := by
  induction cs with
  | nil => rfl
  | cons c rest ih =>
    rw [splitLastSlash]
    by_cases hc : rest.contains '/'
    · rw [if_pos hc]
      simpa using ih
    · rw [if_neg hc]
      by_cases hs : c = '/'
      · rw [if_pos hs]; rfl
      · rw [if_neg hs]; rfl

theorem rstripSlashes_cases (c : Char) (l : List Char) :
    rstripSlashes (c :: l) = [] ∨
      rstripSlashes (c :: l) = c :: rstripSlashes l := by
  rw [rstripSlashes]
  by_cases h : c = '/' ∧ rstripSlashes l = []
  · rw [if_pos h]; exact Or.inl rfl
  · rw [if_neg h]; exact Or.inr rfl

theorem containsDB_rstrip {cs : List Char} (h : containsDB cs = false) :
    containsDB (rstripSlashes cs) = false := by
  induction cs with
  | nil => rfl
  | cons c rest ih =>
    rw [containsDB_cons, Bool.or_eq_false_iff] at h
    obtain ⟨h1, h2⟩ := h
    rcases rstripSlashes_cases c rest with hc | hc
    · rw [hc]; rfl
    · rw [hc, containsDB_cons, Bool.or_eq_false_iff]
      refine ⟨?_, ih h2⟩
      cases ht : rstripSlashes rest with
      | nil => rfl
      | cons t0 tl =>
        rw [startsDB_two]
        cases rest with
        | nil => simp [rstripSlashes] at ht
        | cons r0 rl =>
          rcases rstripSlashes_cases r0 rl with hr | hr
          · rw [hr] at ht; cases ht
          · rw [hr] at ht
            cases ht
            rw [startsDB_two] at h1
            exact h1

theorem containsDB_basename {p : String} (h : containsDB p.data = false) :
    containsDB (pyBasename p).data = false := by
  have hsplit := splitLastSlash_append p.data
  rw [← hsplit] at h
  exact (containsDB_append h).2

theorem containsDB_dirname {p : String} (h : containsDB p.data = false) :
    containsDB (pyDirname p).data = false := by
  have hsplit := splitLastSlash_append p.data
  rw [← hsplit] at h
  have hh : containsDB (splitLastSlash p.data).1 = false := (containsDB_append h).1
  rw [pyDirname]
  by_cases hc :
      (splitLastSlash p.data).1 = [] ∨
        ((splitLastSlash p.data).1.all fun c => c == '/') = true
  · rw [if_pos hc]; exact hh
  · rw [if_neg hc]; exact containsDB_rstrip hh

/-! ## Decimal strings contain no placeholder -/

theorem digitChar_ne_dollar (n : Nat) : digitChar n ≠ '$' := by
  unfold digitChar
  repeat' split
  all_goals decide

theorem natDigitsCore_no_dollar (fuel : Nat) :
    ∀ n, ∀ c ∈ natDigitsCore fuel n, c ≠ '$' := by
  induction fuel with
  | zero =>
    intro n c hc
    rw [natDigitsCore, List.mem_singleton] at hc
    rw [hc]; exact digitChar_ne_dollar _
  | succ fuel ih =>
    intro n c hc
    rw [natDigitsCore] at hc
    split at hc
    · rw [List.mem_singleton] at hc
      rw [hc]; exact digitChar_ne_dollar _
    · rw [List.mem_append] at hc
      rcases hc with hc | hc
      · exact ih (n / 10) c hc
      · rw [List.mem_singleton] at hc
        rw [hc]; exact digitChar_ne_dollar _

theorem natDigits_no_dollar (n : Nat) : ∀ c ∈ natDigits n, c ≠ '$' :=
  natDigitsCore_no_dollar n n

theorem pyIntStr_nonneg_data {n : Int} (h : 0 ≤ n) :
    (pyIntStr n).data = natDigits n.toNat := by
  rw [pyIntStr, if_neg (by omega)]

theorem findInline_pyIntStr {n : Int} (h : 0 ≤ n) :
    findInline (pyIntStr n).data = Option.none := by
  apply findInline_of_not_containsDB
  apply not_containsDB_of_no_dollar
  rw [pyIntStr_nonneg_data h]
  exact fun c hc => natDigits_no_dollar _ c hc

/-! ## Template-level helper lemmas -/

/-- Unfolding of `mkScope` on a non-empty scatter tuple. -/
theorem mkScope_cons (s p : String) (s0 : Int) (rest : List Int) :
    mkScope s p (s0 :: rest) =
      Option.some
        { s := s
          full_path := p
          shard_idx := s0 :: rest
          i := if s0 > -1 then Option.some s0 else Option.none
          j :=
            if h : 1 < (s0 :: rest).length then
              if (s0 :: rest).get ⟨1, h⟩ > -1 then
                Option.some ((s0 :: rest).get ⟨1, h⟩)
              else Option.none
            else Option.none
          k :=
            if h : 2 < (s0 :: rest).length then
              if (s0 :: rest).get ⟨2, h⟩ > -1 then
                Option.some ((s0 :: rest).get ⟨2, h⟩)
              else Option.none
            else Option.none
          basename := pyBasename p
          dirname := pyDirname p } := rfl

theorem interpLoop_fail (sc : ExpScope) (d : List Char) (e : InterpErr) (fuel : Nat)
    (hstep : interpStep sc d = StepRes.failed e) :
    interpLoop sc (fuel + 1) d = Option.some (Except.error e) := by
  have hd : interpLoop sc (fuel + 1) d =
      (match interpStep sc d with
        | StepRes.finished r2 => Option.some (Except.ok r2)
        | StepRes.failed e2 => Option.some (Except.error e2)
        | StepRes.again r2 => interpLoop sc fuel r2) := rfl
  rw [hd, hstep]

/-- Interpreting a template that is exactly one `${id}` placeholder whose
identifier evaluates to `v` (and whose `str(v)` has no placeholder)
produces `str(v)` within two loop iterations. -/
theorem interp_single_template (tpl id p : String) (si : List Int)
    (sc : ExpScope) (v : PyVal)
    (htpl : tpl.data = '$' :: '{' :: (id.data ++ ['}']))
    (hsc : mkScope tpl p si = Option.some sc)
    (hfc : findCloseBrace (id.data ++ ['}']) = Option.some (id.data, []))
    (hev : ∀ r, evalExp id sc r = EvalOut.val v)
    (hnf : findInline (pyStrOf v).data = Option.none) :
    interpret_inline_exp 2 tpl p si = Option.some (Except.ok (pyStrOf v)) := by
  rw [interpret_inline_exp]
  simp only [hsc]
  rw [htpl, interpLoop_single sc id v hfc hev hnf]

/-- Interpreting `${id}` when `eval(id)` raises `NameError` fails at the
first iteration, whatever the (positive) fuel. -/
theorem interp_nameErr_template (tpl id p : String) (si : List Int)
    (sc : ExpScope) (fuel : Nat)
    (htpl : tpl.data = '$' :: '{' :: (id.data ++ ['}']))
    (hsc : mkScope tpl p si = Option.some sc)
    (hfc : findCloseBrace (id.data ++ ['}']) = Option.some (id.data, []))
    (hev : ∀ r, evalExp id sc r = EvalOut.nameErr) :
    interpret_inline_exp (fuel + 1) tpl p si =
      Option.some (Except.error InterpErr.nameErr) := by
  rw [interpret_inline_exp]
  simp only [hsc]
  have hfi : findInline tpl.data = Option.some ([], id.data, []) := by
    rw [htpl, findInline, startMatch, if_pos ⟨rfl, rfl⟩, hfc]
  have hstep : interpStep sc tpl.data = StepRes.failed InterpErr.nameErr := by
    rw [interpStep]
    simp only [hfi, string_mk_data, hev]
  rw [interpLoop_fail sc tpl.data InterpErr.nameErr fuel hstep]

/-- A run that produced a normal result never raises, at any fuel
(the loop is deterministic and monotone in fuel). -/
theorem not_raises_of_ok {s p : String} {si : List Int} {fuel : Nat} {r : String}
    (h : interpret_inline_exp fuel s p si = Option.some (Except.ok r)) :
    ¬ InterpRaises s p si := by
  rintro ⟨n, e, hn⟩
  rcases Nat.le_total n fuel with hle | hle
  · have h2 := interpret_mono hn hle
    have h3 := h2.symm.trans h
    simp at h3
  · have h2 := interpret_mono h hle
    have h3 := h2.symm.trans hn
    simp at h3

/-! ## Claims about the expression interpreter -/

/-- Claim C10: the interpreter's only out-of-range risk is reading
`shard_idx[0]`: scope binding succeeds for every non-empty scatter tuple
(lengths 1 and 2 included, positions 1 and 2 being guarded by explicit
length checks), fails exactly on the empty tuple, and an empty tuple makes
the whole interpretation raise `IndexError` regardless of fuel and
template. -/
theorem C10_indexing_safety :
    (∀ (s p : String) (s0 : Int) (rest : List Int),
        (mkScope s p (s0 :: rest)).isSome = true) ∧
    (∀ s p : String, mkScope s p [] = Option.none) ∧
    (∀ (fuel : Nat) (s p : String),
        interpret_inline_exp fuel s p [] =
          Option.some (Except.error InterpErr.indexErr)) :=
  ⟨fun _ _ _ _ => rfl, fun _ _ => rfl, fun _ _ _ => rfl⟩

/-- Claim C3 (amended): when the substitution loop terminates normally the
returned string contains no remaining `${...}` match — the loop only exits
on a failed regex search.  (Termination itself is not guaranteed; see the
counterexample.) -/
theorem C3_no_residual_placeholder :
    ∀ (fuel : Nat) (s p : String) (si : List Int) (r : String),
      interpret_inline_exp fuel s p si = Option.some (Except.ok r) →
      findInline r.data = Option.none := by
  intro fuel s p si r h
  rw [interpret_inline_exp] at h
  cases hsc : mkScope s p si with
  | none => simp only [hsc] at h; cases h
  | some sc =>
    simp only [hsc] at h
    cases hl : interpLoop sc fuel s.data with
    | none => simp only [hl] at h; cases h
    | some r2 =>
      simp only [hl] at h
      cases r2 with
      | ok rr =>
        cases h
        exact interpLoop_ok_no_match hl
      | error e => simp only [] at h; cases h

/-- Witness for C3: a terminating run, whose result indeed has no
placeholder left. -/
theorem C3_witness :
    interpret_inline_exp 2 "${basename}" "/a/b.txt" [0, -1, -1] =
      Option.some (Except.ok "b.txt") ∧
    findInline (String.data "b.txt") = Option.none :=
  ⟨rfl, C3_no_residual_placeholder 2 "${basename}" "/a/b.txt" [0, -1, -1] "b.txt" rfl⟩

/-- Counterexample to C3 as stated: the loop does NOT always terminate.
The template `"${s}"` evaluates the local variable `s` — the template
itself — so each pass replaces `"${s}"` by `"${s}"` and the `while True:`
loop spins forever (no fuel suffices). -/
theorem C3_counterexample : ¬ InterpTerminates "${s}" "/a/b.txt" [0, -1, -1] := by
  rintro ⟨fuel, out, h⟩
  have hsc : mkScope "${s}" "/a/b.txt" [0, -1, -1] =
      Option.some
        ⟨"${s}", "/a/b.txt", [0, -1, -1], Option.some 0, Option.none,
          Option.none, "b.txt", "/a"⟩ := by decide
  rw [interpret_inline_exp] at h
  simp only [hsc] at h
  have hfix :
      interpStep
        ⟨"${s}", "/a/b.txt", [0, -1, -1], Option.some 0, Option.none,
          Option.none, "b.txt", "/a"⟩ (String.data "${s}") =
        StepRes.again (String.data "${s}") := by decide
  rw [interpLoop_fix hfix fuel] at h
  cases h

/-- Claim C1 (amended): referencing `i` while position 0 of the scatter
index is `-1` (and `j`, `k` while position 1 resp. 2 is absent or `-1`)
does NOT raise: the unbound identifier is the Python value `None`, and the
interpreter substitutes the string `"None"`. -/
theorem C1_unbound_index_gives_None :
    (∀ (p : String) (rest : List Int),
        interpret_inline_exp 2 "${i}" p (-1 :: rest) =
          Option.some (Except.ok "None")) ∧
    (∀ (p : String) (s0 : Int),
        interpret_inline_exp 2 "${j}" p [s0] =
          Option.some (Except.ok "None")) ∧
    (∀ (p : String) (s0 : Int) (rest : List Int),
        interpret_inline_exp 2 "${j}" p (s0 :: -1 :: rest) =
          Option.some (Except.ok "None")) ∧
    (∀ (p : String) (s0 s1 : Int),
        interpret_inline_exp 2 "${k}" p [s0, s1] =
          Option.some (Except.ok "None")) ∧
    (∀ (p : String) (s0 s1 : Int) (rest : List Int),
        interpret_inline_exp 2 "${k}" p (s0 :: s1 :: -1 :: rest) =
          Option.some (Except.ok "None")) := by
  refine ⟨fun p rest => ?_, fun p s0 => ?_, fun p s0 rest => ?_,
    fun p s0 s1 => ?_, fun p s0 s1 rest => ?_⟩
  · exact interp_single_template "${i}" "i" p (-1 :: rest) _ PyVal.none rfl
      (mkScope_cons _ p (-1) rest) rfl (fun r => rfl) rfl
  · exact interp_single_template "${j}" "j" p [s0] _ PyVal.none rfl
      (mkScope_cons _ p s0 []) rfl (fun r => rfl) rfl
  · refine interp_single_template "${j}" "j" p (s0 :: -1 :: rest) _ PyVal.none rfl
      (mkScope_cons _ p s0 (-1 :: rest)) rfl (fun r => ?_) rfl
    show EvalOut.val
        (optIntVal
          (if h : 1 < (s0 :: -1 :: rest).length then
            if (s0 :: -1 :: rest).get ⟨1, h⟩ > -1 then
              Option.some ((s0 :: -1 :: rest).get ⟨1, h⟩)
            else Option.none
          else Option.none)) = EvalOut.val PyVal.none
    rw [dif_pos (by simp)]
    simp [List.get, optIntVal]
  · exact interp_single_template "${k}" "k" p [s0, s1] _ PyVal.none rfl
      (mkScope_cons _ p s0 [s1]) rfl (fun r => rfl) rfl
  · refine interp_single_template "${k}" "k" p (s0 :: s1 :: -1 :: rest) _ PyVal.none rfl
      (mkScope_cons _ p s0 (s1 :: -1 :: rest)) rfl (fun r => ?_) rfl
    show EvalOut.val
        (optIntVal
          (if h : 2 < (s0 :: s1 :: -1 :: rest).length then
            if (s0 :: s1 :: -1 :: rest).get ⟨2, h⟩ > -1 then
              Option.some ((s0 :: s1 :: -1 :: rest).get ⟨2, h⟩)
            else Option.none
          else Option.none)) = EvalOut.val PyVal.none
    rw [dif_pos (by simp)]
    simp [List.get, optIntVal]

/-- Counterexample to C1 as stated: with scatter index `(-1, -1, -1)` the
template `"${i}"` does not raise any error — `i` is bound to Python `None`
and the interpreter returns the string `"None"`. -/
theorem C1_counterexample :
    interpret_inline_exp 2 "${i}" "/a/b.txt" [-1, -1, -1] =
      Option.some (Except.ok "None") ∧
    ¬ InterpRaises "${i}" "/a/b.txt" [-1, -1, -1] :=
  ⟨rfl, @not_raises_of_ok "${i}" "/a/b.txt" [-1, -1, -1] 2 "None" rfl⟩

/-- Claim C2 (amended): an identifier absent from every Python scope (such
as `foo`) raises `NameError` — a hard error, at any fuel; but an
identifier outside the seven-identifier table that IS in `eval`'s scope
(such as the builtin `len`) substitutes successfully instead of raising. -/
theorem C2_unknown_identifier :
    (∀ (p : String) (s0 : Int) (rest : List Int) (fuel : Nat),
        interpret_inline_exp (fuel + 1) "${foo}" p (s0 :: rest) =
          Option.some (Except.error InterpErr.nameErr)) ∧
    (∀ (p : String) (s0 : Int) (rest : List Int),
        interpret_inline_exp 2 "${len}" p (s0 :: rest) =
          Option.some (Except.ok "<built-in function len>")) := by
  constructor
  · intro p s0 rest fuel
    exact interp_nameErr_template "${foo}" "foo" p (s0 :: rest) _ fuel rfl
      (mkScope_cons _ p s0 rest) rfl (fun r => rfl)
  · intro p s0 rest
    exact interp_single_template "${len}" "len" p (s0 :: rest) _
      (PyVal.bfun "len") rfl (mkScope_cons _ p s0 rest) rfl (fun r => rfl) rfl

/-- Counterexample to C2 as stated: `len` is outside the seven-identifier
table, yet interpreting `"${len}"` succeeds (substituting the `str()` of
the builtin) and never raises. -/
theorem C2_counterexample :
    interpret_inline_exp 2 "${len}" "/a/b.txt" [0, -1, -1] =
      Option.some (Except.ok "<built-in function len>") ∧
    ¬ InterpRaises "${len}" "/a/b.txt" [0, -1, -1] :=
  ⟨rfl, @not_raises_of_ok "${len}" "/a/b.txt" [0, -1, -1] 2 "<built-in function len>" rfl⟩

/-- Claim C8 (amended): for every scatter index with `s[0] ≥ 0`, `${i}`
gives the decimal form of `s[0]` for EVERY file location (digit strings
never contain a placeholder, so no side condition is needed); and for a
file location whose text contains no `"${"` (so that re-scanning the
substituted value finds nothing), `${basename}` / `${dirname}` give the
final path segment resp. everything before it, and `${full_path}` gives
the location verbatim. -/
theorem C8_basic_substitutions :
    ∀ (p : String) (s0 : Int) (rest : List Int),
      0 ≤ s0 →
      interpret_inline_exp 2 "${i}" p (s0 :: rest) =
          Option.some (Except.ok (pyIntStr s0)) ∧
      (containsDB p.data = false →
        interpret_inline_exp 2 "${basename}" p (s0 :: rest) =
            Option.some (Except.ok (pyBasename p)) ∧
        interpret_inline_exp 2 "${dirname}" p (s0 :: rest) =
            Option.some (Except.ok (pyDirname p)) ∧
        interpret_inline_exp 2 "${full_path}" p (s0 :: rest) =
            Option.some (Except.ok p)) := by
  intro p s0 rest h0
  constructor
  · refine interp_single_template "${i}" "i" p (s0 :: rest) _ (PyVal.int s0) rfl
      (mkScope_cons _ p s0 rest) rfl (fun r => ?_) (findInline_pyIntStr h0)
    show EvalOut.val
        (optIntVal (if s0 > -1 then Option.some s0 else Option.none)) =
      EvalOut.val (PyVal.int s0)
    rw [if_pos (by omega)]
    rfl
  · intro hp
    refine ⟨?_, ?_, ?_⟩
    · exact interp_single_template "${basename}" "basename" p (s0 :: rest) _
        (PyVal.str (pyBasename p)) rfl (mkScope_cons _ p s0 rest) rfl
        (fun r => rfl) (findInline_of_not_containsDB (containsDB_basename hp))
    · exact interp_single_template "${dirname}" "dirname" p (s0 :: rest) _
        (PyVal.str (pyDirname p)) rfl (mkScope_cons _ p s0 rest) rfl
        (fun r => rfl) (findInline_of_not_containsDB (containsDB_dirname hp))
    · exact interp_single_template "${full_path}" "full_path" p (s0 :: rest) _
        (PyVal.str p) rfl (mkScope_cons _ p s0 rest) rfl
        (fun r => rfl) (findInline_of_not_containsDB hp)

/-- Witness for C8 at a concrete input, discharging both the `s[0] ≥ 0`
hypothesis and the placeholder-free hypothesis of the path conjuncts. -/
theorem C8_witness :
    (0 : Int) ≤ 3 ∧ containsDB (String.data "/a/b.txt") = false ∧
    (interpret_inline_exp 2 "${i}" "/a/b.txt" [3, -1] =
        Option.some (Except.ok (pyIntStr 3)) ∧
      (interpret_inline_exp 2 "${basename}" "/a/b.txt" [3, -1] =
          Option.some (Except.ok (pyBasename "/a/b.txt")) ∧
        interpret_inline_exp 2 "${dirname}" "/a/b.txt" [3, -1] =
          Option.some (Except.ok (pyDirname "/a/b.txt")) ∧
        interpret_inline_exp 2 "${full_path}" "/a/b.txt" [3, -1] =
          Option.some (Except.ok "/a/b.txt"))) :=
  ⟨by decide, rfl,
    (C8_basic_substitutions "/a/b.txt" 3 [-1] (by decide)).1,
    (C8_basic_substitutions "/a/b.txt" 3 [-1] (by decide)).2 rfl⟩

/-- Counterexample to C8 as stated (universally over all file locations):
when the file location itself contains placeholder-shaped text, the
re-scan substitutes again, so `${basename}` does not return the final path
segment. -/
theorem C8_counterexample :
    interpret_inline_exp 3 "${basename}" "/a/${i}" [7, -1, -1] =
      Option.some (Except.ok "7") ∧
    pyBasename "/a/${i}" = "${i}" ∧ ("7" : String) ≠ "${i}" :=
  ⟨rfl, rfl, by decide⟩

/-! ## The output matcher (`Croo.organize_output`)

The task graph is external (built by `cromwell_metadata.py`); its
traversal `get_nodes()` yields task dicts with `task_name`, `shard_idx`
and `out_files`, modelled as a list in traversal order.  The output
definition JSON is a nested insertion-ordered mapping, modelled as nested
association lists.  CaperURI placement/URL resolution and the HTML report
are external I/O collaborators, modelled as a sink of pure functions; the
report calls are recorded in the produced `MatchResult` values.
-/

/-- One node of the external task graph: `task['task_name']`,
`task['shard_idx']`, `task['out_files']` (ordered `(output variable name,
full path)` pairs). -/
structure TaskRecord where
  task_name : String
  shard_idx : List Int
  out_files : List (String × String)
deriving DecidableEq

/-- One leaf of the output definition JSON: the three independent optional
template fields read by `organize_output` (`out_var.get('path')`,
`out_var.get('table')`, `out_var.get('ucsc_track')`). -/
structure OutputSpec where
  path : Option String
  table : Option String
  ucsc_track : Option String
deriving DecidableEq

/-- The output definition document: task name → output variable name →
OutputSpec, in declared (insertion) order. -/
abbrev OutDef := List (String × List (String × OutputSpec))

/-- External placement and URL resolution
(`CaperURI(full_path).copy(target_uri, soft_link)` and
`CaperURI(target_uri).get_url()`), supplied as pure functions. -/
structure Sink where
  copy : String → String → Bool → String
  get_url : String → Option String

/-- The ambient data of one `organize_output` run: interpreter fuel, the
reorganization root `self._out_dir`, `self._soft_link`, and the external
sink. -/
structure Ctx where
  fuel : Nat
  out_dir : String
  soft_link : Bool
  sink : Sink

/-- The trace record produced for one matched (OutputSpec, TaskRecord,
output file) triple: which match it was, the spec's templates, the
destination-path candidate (`os.path.join(out_dir, interpreted_path)` or
the unchanged source), the sink's final location and URL, and the emitted
file-table / UCSC-track entries. -/
structure MatchResult where
  task_name : String
  out_var_name : String
  source : String
  shard_idx : List Int
  path_template : Option String
  table_template : Option String
  track_template : Option String
  dest_candidate : String
  target_uri : String
  target_url : Option String
  table_entry : Option (String × Option String × String)
  track_entry : Option (String × String)
deriving DecidableEq

/-- Run the interpreter on an optional template
(`Option.none` outer result = fuel exhausted). -/
def interpOpt (c : Ctx) (tmpl : Option String) (fp : String) (si : List Int) :
    Option (Except InterpErr (Option String)) :=
  match tmpl with
  | Option.none => Option.some (Except.ok Option.none)
  | Option.some t =>
      match interpret_inline_exp c.fuel t fp si with
      | Option.none => Option.none
      | Option.some (Except.ok r) => Option.some (Except.ok (Option.some r))
      | Option.some (Except.error e) => Option.some (Except.error e)

/-- The per-match body of `organize_output`'s innermost loop: resolve the
path template and join/copy (or keep the original location), resolve the
URL, then emit the table entry (if `table` is present) and the track entry
(only if `ucsc_track` is present AND a URL was obtained). -/
def processMatch (c : Ctx) (tn ovn : String) (spec : OutputSpec)
    (si : List Int) (fp : String) : Option (Except InterpErr MatchResult) :=
  match interpOpt c spec.path fp si with
  | Option.none => Option.none
  | Option.some (Except.error e) => Option.some (Except.error e)
  | Option.some (Except.ok ipOpt) =>
      let dest :=
        match ipOpt with
        | Option.some ip => osPathJoin c.out_dir ip
        | Option.none => fp
      let tu :=
        match ipOpt with
        | Option.some _ => c.sink.copy fp dest c.soft_link
        | Option.none => fp
      let url := c.sink.get_url tu
      match interpOpt c spec.table fp si with
      | Option.none => Option.none
      | Option.some (Except.error e) => Option.some (Except.error e)
      | Option.some (Except.ok tblOpt) =>
          match url with
          | Option.none =>
              Option.some (Except.ok
                { task_name := tn, out_var_name := ovn, source := fp
                  shard_idx := si, path_template := spec.path
                  table_template := spec.table
                  track_template := spec.ucsc_track
                  dest_candidate := dest, target_uri := tu
                  target_url := Option.none
                  table_entry := tblOpt.map (fun s => (tu, Option.none, s))
                  track_entry := Option.none })
          | Option.some u =>
              match interpOpt c spec.ucsc_track fp si with
              | Option.none => Option.none
              | Option.some (Except.error e) => Option.some (Except.error e)
              | Option.some (Except.ok trOpt) =>
                  Option.some (Except.ok
                    { task_name := tn, out_var_name := ovn, source := fp
                      shard_idx := si, path_template := spec.path
                      table_template := spec.table
                      track_template := spec.ucsc_track
                      dest_candidate := dest, target_uri := tu
                      target_url := Option.some u
                      table_entry := tblOpt.map (fun s => (tu, Option.some u, s))
                      track_entry := trOpt.map (fun s => (u, s)) })

/-- Sequencing of two sub-runs: the first error (in source order) aborts
the whole run; otherwise the traces are concatenated. -/
def rSeq (x y : Option (Except InterpErr (List MatchResult))) :
    Option (Except InterpErr (List MatchResult)) :=
  match x with
  | Option.none => Option.none
  | Option.some (Except.error e) => Option.some (Except.error e)
  | Option.some (Except.ok a) =>
      match y with
      | Option.none => Option.none
      | Option.some (Except.error e) => Option.some (Except.error e)
      | Option.some (Except.ok b) => Option.some (Except.ok (a ++ b))

/-- Innermost loop: `for k, full_path in out_files: if k != out_var_name:
continue`. -/
def runFiles (c : Ctx) (tn ovn : String) (spec : OutputSpec) (si : List Int) :
    List (String × String) → Option (Except InterpErr (List MatchResult))
  | [] => Option.some (Except.ok [])
  | pr :: rest =>
      if pr.1 = ovn then
        match processMatch c tn ovn spec si pr.2 with
        | Option.none => Option.none
        | Option.some (Except.error e) => Option.some (Except.error e)
        | Option.some (Except.ok r) =>
            match runFiles c tn ovn spec si rest with
            | Option.none => Option.none
            | Option.some (Except.error e) => Option.some (Except.error e)
            | Option.some (Except.ok rs) => Option.some (Except.ok (r :: rs))
      else runFiles c tn ovn spec si rest

/-- Middle loop: `for _, task in self._task_graph.get_nodes(): if
task_name != task['task_name']: continue`. -/
def runTasks (c : Ctx) (tn ovn : String) (spec : OutputSpec) :
    List TaskRecord → Option (Except InterpErr (List MatchResult))
  | [] => Option.some (Except.ok [])
  | t :: rest =>
      if t.task_name = tn then
        rSeq (runFiles c tn ovn spec t.shard_idx t.out_files)
          (runTasks c tn ovn spec rest)
      else runTasks c tn ovn spec rest

/-- Second loop: `for out_var_name, out_var in out_vars.items()`. -/
def runVars (c : Ctx) (g : List TaskRecord) (tn : String) :
    List (String × OutputSpec) → Option (Except InterpErr (List MatchResult))
  | [] => Option.some (Except.ok [])
  | ov :: rest => rSeq (runTasks c tn ov.1 ov.2 g) (runVars c g tn rest)

/-- `Croo.organize_output`: outer loop `for task_name, out_vars in
self._out_def_json.items()`, producing the trace of all matches in
emission order (or the first fatal interpreter error, or fuel
exhaustion). -/
def organize_output (c : Ctx) : OutDef → List TaskRecord →
    Option (Except InterpErr (List MatchResult))
  | [], _ => Option.some (Except.ok [])
  | td :: rest, g => rSeq (runVars c g td.1 td.2) (organize_output c rest g)

/-! ## Spec-side definitions

The following definitions follow the words of the specification (§4.2),
not the code; the refinement claims compare `organize_output` against
them. -/

/-- Spec §4.2 step 1: "If `OutputSpec.path` is present, resolve it via the
Expression Interpreter using the matched file's location and the
TaskRecord's scatter index, then join the result onto the reorganization
root directory to form the destination path candidate; otherwise the
destination candidate is the matched file's original location unchanged."
`Option.none` = the interpreter did not return normally. -/
def destCandidateSpec (fuel : Nat) (out_dir : String) (pt : Option String)
    (src : String) (si : List Int) : Option String :=
  match pt with
  | Option.none => Option.some src
  | Option.some t =>
      match interpret_inline_exp fuel t src si with
      | Option.some (Except.ok ip) => Option.some (osPathJoin out_dir ip)
      | _ => Option.none

/-- Spec §4.2 step 3: "If `OutputSpec.table` is present, resolve it … and
emit a table entry referencing the resolved location, the resolved URL (if
any), and the resolved table text"; absent `table` means no entry. -/
def tableEntrySpec (fuel : Nat) (tmpl : Option String) (loc : String)
    (url : Option String) (src : String) (si : List Int) :
    Option (Option (String × Option String × String)) :=
  match tmpl with
  | Option.none => Option.some Option.none
  | Option.some t =>
      match interpret_inline_exp fuel t src si with
      | Option.some (Except.ok x) => Option.some (Option.some (loc, url, x))
      | _ => Option.none

/-- Spec §4.2 step 4: "If `OutputSpec.track` is present AND a resolved URL
was obtained, resolve the track template and emit a track entry
referencing the URL and resolved track text"; otherwise no track entry. -/
def trackEntrySpec (fuel : Nat) (tmpl : Option String) (url : Option String)
    (src : String) (si : List Int) : Option (Option (String × String)) :=
  match tmpl, url with
  | Option.some t, Option.some u =>
      match interpret_inline_exp fuel t src si with
      | Option.some (Except.ok x) => Option.some (Option.some (u, x))
      | _ => Option.none
  | _, _ => Option.some Option.none

/-- The identity of a match: (task name, output variable name, file). -/
def projM (r : MatchResult) : String × String × String :=
  (r.task_name, r.out_var_name, r.source)

/-- Spec §4.2: the matches of one definition entry, in the task graph's
traversal order, then in each matching TaskRecord's output-list order. -/
def specMatchesForVar (tn ovn : String) (g : List TaskRecord) :
    List (String × String × String) :=
  (g.filter (fun t => t.task_name == tn)).flatMap
    (fun t =>
      (t.out_files.filter (fun pr => pr.1 == ovn)).map (fun pr => (tn, ovn, pr.2)))

/-- Spec §4.2 ordering guarantee: all matches, in the declaration order of
the OutputDefinition (task, then output variable), then graph traversal
order, then output-list order. -/
def specMatches (out_def : OutDef) (g : List TaskRecord) :
    List (String × String × String) :=
  out_def.flatMap (fun td => td.2.flatMap (fun ov => specMatchesForVar td.1 ov.1 g))

/-- Does any TaskRecord of `g` match (task name, output variable name)? -/
def hasMatchFor (g : List TaskRecord) (tn ovn : String) : Bool :=
  g.any (fun t => t.task_name == tn && t.out_files.any (fun pr => pr.1 == ovn))

/-- The per-match postcondition: the trace record's destination candidate,
URL, table entry and track entry are the ones the spec's §4.2 steps
prescribe for its templates, source and scatter index. -/
def ResultOk (c : Ctx) (r : MatchResult) : Prop :=
  destCandidateSpec c.fuel c.out_dir r.path_template r.source r.shard_idx =
      Option.some r.dest_candidate ∧
  r.target_url = c.sink.get_url r.target_uri ∧
  tableEntrySpec c.fuel r.table_template r.target_uri r.target_url r.source
      r.shard_idx = Option.some r.table_entry ∧
  trackEntrySpec c.fuel r.track_template r.target_url r.source r.shard_idx =
      Option.some r.track_entry

/-! ## Lemmas about `processMatch` -/

theorem interpOpt_ok {c : Ctx} {tmpl : Option String} {fp : String}
    {si : List Int} {v : Option String}
    (h : interpOpt c tmpl fp si = Option.some (Except.ok v)) :
    (tmpl = Option.none ∧ v = Option.none) ∨
      (∃ t x, tmpl = Option.some t ∧ v = Option.some x ∧
        interpret_inline_exp c.fuel t fp si = Option.some (Except.ok x)) := by
  cases tmpl with
  | none => rw [interpOpt] at h; cases h; exact Or.inl ⟨rfl, rfl⟩
  | some t =>
    rw [interpOpt] at h
    cases hi : interpret_inline_exp c.fuel t fp si with
    | none => simp only [hi] at h; cases h
    | some r0 =>
      cases r0 with
      | ok x => simp only [hi] at h; cases h; exact Or.inr ⟨t, x, rfl, rfl, hi⟩
      | error e => simp only [hi] at h; cases h

theorem destCandidateSpec_of_interpOpt {c : Ctx} {fp : String} {si : List Int}
    {pt : Option String} {ipOpt : Option String}
    (h : interpOpt c pt fp si = Option.some (Except.ok ipOpt)) :
    destCandidateSpec c.fuel c.out_dir pt fp si =
      Option.some
        (match ipOpt with
          | Option.some ip => osPathJoin c.out_dir ip
          | Option.none => fp) := by
  rcases interpOpt_ok h with ⟨h1, h2⟩ | ⟨t, x, h1, h2, h3⟩
  · subst h1; subst h2; rfl
  · subst h1; subst h2
    rw [destCandidateSpec]
    simp only [h3]

theorem tableEntrySpec_of_interpOpt {c : Ctx} {fp loc : String} {si : List Int}
    {tmpl : Option String} {url : Option String} {v : Option String}
    (h : interpOpt c tmpl fp si = Option.some (Except.ok v)) :
    tableEntrySpec c.fuel tmpl loc url fp si =
      Option.some (v.map (fun s => (loc, url, s))) := by
  rcases interpOpt_ok h with ⟨h1, h2⟩ | ⟨t, x, h1, h2, h3⟩
  · subst h1; subst h2; rfl
  · subst h1; subst h2
    rw [tableEntrySpec]
    simp only [h3]
    rfl

theorem trackEntrySpec_none_url (fuel : Nat) (tmpl : Option String)
    (src : String) (si : List Int) :
    trackEntrySpec fuel tmpl Option.none src si = Option.some Option.none := by
  cases tmpl <;> rfl

theorem trackEntrySpec_of_interpOpt {c : Ctx} {fp u : String} {si : List Int}
    {tmpl : Option String} {v : Option String}
    (h : interpOpt c tmpl fp si = Option.some (Except.ok v)) :
    trackEntrySpec c.fuel tmpl (Option.some u) fp si =
      Option.some (v.map (fun s => (u, s))) := by
  rcases interpOpt_ok h with ⟨h1, h2⟩ | ⟨t, x, h1, h2, h3⟩
  · subst h1; subst h2; rfl
  · subst h1; subst h2
    rw [trackEntrySpec]
    simp only [h3]
    rfl

theorem processMatch_ok {c : Ctx} {tn ovn : String} {spec : OutputSpec}
    {si : List Int} {fp : String} {r : MatchResult}
    (h : processMatch c tn ovn spec si fp = Option.some (Except.ok r)) :
    r.task_name = tn ∧ r.out_var_name = ovn ∧ r.source = fp ∧
    r.shard_idx = si ∧ r.path_template = spec.path ∧
    r.table_template = spec.table ∧ r.track_template = spec.ucsc_track ∧
    ResultOk c r := by
  rw [processMatch] at h
  cases hp : interpOpt c spec.path fp si with
  | none => simp only [hp] at h; cases h
  | some ep =>
    cases ep with
    | error e => simp only [hp] at h; cases h
    | ok ipOpt =>
      simp only [hp] at h
      cases ipOpt with
      | none =>
        dsimp only at h
        cases htbl : interpOpt c spec.table fp si with
        | none => simp only [htbl] at h; cases h
        | some et =>
          cases et with
          | error e => simp only [htbl] at h; cases h
          | ok tblOpt =>
            simp only [htbl] at h
            cases hurl : c.sink.get_url fp with
            | none =>
              simp only [hurl] at h
              cases h
              refine ⟨rfl, rfl, rfl, rfl, rfl, rfl, rfl, ?_, ?_, ?_, ?_⟩
              · exact destCandidateSpec_of_interpOpt hp
              · exact hurl.symm
              · exact tableEntrySpec_of_interpOpt htbl
              · exact trackEntrySpec_none_url c.fuel spec.ucsc_track fp si
            | some u =>
              simp only [hurl] at h
              cases htr : interpOpt c spec.ucsc_track fp si with
              | none => simp only [htr] at h; cases h
              | some er =>
                cases er with
                | error e => simp only [htr] at h; cases h
                | ok trOpt =>
                  simp only [htr] at h
                  cases h
                  refine ⟨rfl, rfl, rfl, rfl, rfl, rfl, rfl, ?_, ?_, ?_, ?_⟩
                  · exact destCandidateSpec_of_interpOpt hp
                  · exact hurl.symm
                  · exact tableEntrySpec_of_interpOpt htbl
                  · exact trackEntrySpec_of_interpOpt htr
      | some ip =>
        dsimp only at h
        cases htbl : interpOpt c spec.table fp si with
        | none => simp only [htbl] at h; cases h
        | some et =>
          cases et with
          | error e => simp only [htbl] at h; cases h
          | ok tblOpt =>
            simp only [htbl] at h
            cases hurl :
                c.sink.get_url (c.sink.copy fp (osPathJoin c.out_dir ip) c.soft_link) with
            | none =>
              simp only [hurl] at h
              cases h
              refine ⟨rfl, rfl, rfl, rfl, rfl, rfl, rfl, ?_, ?_, ?_, ?_⟩
              · exact destCandidateSpec_of_interpOpt hp
              · exact hurl.symm
              · exact tableEntrySpec_of_interpOpt htbl
              · exact trackEntrySpec_none_url c.fuel spec.ucsc_track fp si
            | some u =>
              simp only [hurl] at h
              cases htr : interpOpt c spec.ucsc_track fp si with
              | none => simp only [htr] at h; cases h
              | some er =>
                cases er with
                | error e => simp only [htr] at h; cases h
                | ok trOpt =>
                  simp only [htr] at h
                  cases h
                  refine ⟨rfl, rfl, rfl, rfl, rfl, rfl, rfl, ?_, ?_, ?_, ?_⟩
                  · exact destCandidateSpec_of_interpOpt hp
                  · exact hurl.symm
                  · exact tableEntrySpec_of_interpOpt htbl
                  · exact trackEntrySpec_of_interpOpt htr

/-! ## Lemmas about the nested matching loops -/

theorem rSeq_ok {x y : Option (Except InterpErr (List MatchResult))}
    {rs : List MatchResult} (h : rSeq x y = Option.some (Except.ok rs)) :
    ∃ a b, x = Option.some (Except.ok a) ∧ y = Option.some (Except.ok b) ∧
      rs = a ++ b := by
  rcases x with _ | (e | a)
  · simp [rSeq] at h
  · simp [rSeq] at h
  · rcases y with _ | (e2 | b)
    · simp [rSeq] at h
    · simp [rSeq] at h
    · simp only [rSeq] at h
      cases h
      exact ⟨a, b, rfl, rfl, rfl⟩

theorem rSeq_assoc (x y z : Option (Except InterpErr (List MatchResult))) :
    rSeq (rSeq x y) z = rSeq x (rSeq y z) := by
  rcases x with _ | (e | a) <;> rcases y with _ | (e2 | b) <;>
    rcases z with _ | (e3 | d) <;> simp [rSeq]

theorem rSeq_nil_left (y : Option (Except InterpErr (List MatchResult))) :
    rSeq (Option.some (Except.ok [])) y = y := by
  rcases y with _ | (e | b) <;> simp [rSeq]

theorem runFiles_ok {c : Ctx} {tn ovn : String} {spec : OutputSpec}
    {si : List Int} {files : List (String × String)} {rs : List MatchResult}
    (h : runFiles c tn ovn spec si files = Option.some (Except.ok rs)) :
    rs.map projM =
        (files.filter (fun pr => pr.1 == ovn)).map (fun pr => (tn, ovn, pr.2)) ∧
      ∀ r ∈ rs, ResultOk c r := by
  induction files generalizing rs with
  | nil => rw [runFiles] at h; cases h; exact ⟨rfl, by simp⟩
  | cons pr rest ih =>
    rw [runFiles] at h
    by_cases hpr : pr.1 = ovn
    · rw [if_pos hpr] at h
      cases hpm : processMatch c tn ovn spec si pr.2 with
      | none => simp only [hpm] at h; cases h
      | some e1 =>
        cases e1 with
        | error e => simp only [hpm] at h; cases h
        | ok r0 =>
          simp only [hpm] at h
          cases hrf : runFiles c tn ovn spec si rest with
          | none => simp only [hrf] at h; cases h
          | some e2 =>
            cases e2 with
            | error e => simp only [hrf] at h; cases h
            | ok rs2 =>
              simp only [hrf] at h
              cases h
              obtain ⟨ha, hb⟩ := ih hrf
              obtain ⟨f1, f2, f3, f4, f5, f6, f7, f8⟩ := processMatch_ok hpm
              constructor
              · rw [List.filter_cons, if_pos (by simp [hpr])]
                simp only [List.map_cons]
                rw [ha]
                congr 1
                simp [projM, f1, f2, f3]
              · intro x hx
                rcases List.mem_cons.mp hx with hx | hx
                · subst hx; exact f8
                · exact hb x hx
    · rw [if_neg hpr] at h
      obtain ⟨h1, h2⟩ := ih h
      refine ⟨?_, h2⟩
      rw [h1, List.filter_cons, if_neg (by simp [hpr])]

theorem specMatchesForVar_cons (tn ovn : String) (t : TaskRecord)
    (rest : List TaskRecord) :
    specMatchesForVar tn ovn (t :: rest) =
      (if t.task_name = tn then
        (t.out_files.filter (fun pr => pr.1 == ovn)).map (fun pr => (tn, ovn, pr.2))
      else []) ++ specMatchesForVar tn ovn rest := by
  rw [specMatchesForVar, List.filter_cons]
  by_cases ht : t.task_name = tn
  · rw [if_pos (by simp [ht]), if_pos ht, List.flatMap_cons]
    rfl
  · rw [if_neg (by simp [ht]), if_neg ht, List.nil_append]
    rfl

theorem runTasks_ok {c : Ctx} {tn ovn : String} {spec : OutputSpec}
    {gg : List TaskRecord} {rs : List MatchResult}
    (h : runTasks c tn ovn spec gg = Option.some (Except.ok rs)) :
    rs.map projM = specMatchesForVar tn ovn gg ∧ ∀ r ∈ rs, ResultOk c r := by
  induction gg generalizing rs with
  | nil => rw [runTasks] at h; cases h; exact ⟨rfl, by simp⟩
  | cons t rest ih =>
    rw [runTasks] at h
    by_cases ht : t.task_name = tn
    · rw [if_pos ht] at h
      obtain ⟨a, b, hx, hy, hab⟩ := rSeq_ok h
      obtain ⟨ha1, ha2⟩ := runFiles_ok hx
      obtain ⟨hb1, hb2⟩ := ih hy
      subst hab
      constructor
      · rw [List.map_append, ha1, hb1, specMatchesForVar_cons, if_pos ht]
      · intro r hr
        rcases List.mem_append.mp hr with hr | hr
        · exact ha2 r hr
        · exact hb2 r hr
    · rw [if_neg ht] at h
      obtain ⟨h1, h2⟩ := ih h
      refine ⟨?_, h2⟩
      rw [h1, specMatchesForVar_cons, if_neg ht, List.nil_append]

theorem runVars_ok {c : Ctx} {g : List TaskRecord} {tn : String}
    {vars : List (String × OutputSpec)} {rs : List MatchResult}
    (h : runVars c g tn vars = Option.some (Except.ok rs)) :
    rs.map projM = vars.flatMap (fun ov => specMatchesForVar tn ov.1 g) ∧
      ∀ r ∈ rs, ResultOk c r := by
  induction vars generalizing rs with
  | nil => rw [runVars] at h; cases h; exact ⟨rfl, by simp⟩
  | cons ov rest ih =>
    rw [runVars] at h
    obtain ⟨a, b, hx, hy, hab⟩ := rSeq_ok h
    obtain ⟨ha1, ha2⟩ := runTasks_ok hx
    obtain ⟨hb1, hb2⟩ := ih hy
    subst hab
    constructor
    · rw [List.map_append, ha1, hb1, List.flatMap_cons]
    · intro r hr
      rcases List.mem_append.mp hr with hr | hr
      · exact ha2 r hr
      · exact hb2 r hr

theorem organize_ok {c : Ctx} {out_def : OutDef} {g : List TaskRecord}
    {rs : List MatchResult}
    (h : organize_output c out_def g = Option.some (Except.ok rs)) :
    rs.map projM = specMatches out_def g ∧ ∀ r ∈ rs, ResultOk c r := by
  induction out_def generalizing rs with
  | nil => rw [organize_output] at h; cases h; exact ⟨rfl, by simp⟩
  | cons td rest ih =>
    rw [organize_output] at h
    obtain ⟨a, b, hx, hy, hab⟩ := rSeq_ok h
    obtain ⟨ha1, ha2⟩ := runVars_ok hx
    obtain ⟨hb1, hb2⟩ := ih hy
    subst hab
    constructor
    · rw [List.map_append, ha1, specMatches, List.flatMap_cons, hb1]
      rfl
    · intro r hr
      rcases List.mem_append.mp hr with hr | hr
      · exact ha2 r hr
      · exact hb2 r hr

/-! ## Lemmas for zero-match definition entries -/

theorem runFiles_no_match {c : Ctx} {tn ovn : String} {spec : OutputSpec}
    {si : List Int} {files : List (String × String)}
    (h : files.any (fun pr => pr.1 == ovn) = false) :
    runFiles c tn ovn spec si files = Option.some (Except.ok []) := by
  induction files with
  | nil => rfl
  | cons pr rest ih =>
    rw [List.any_cons, Bool.or_eq_false_iff] at h
    rw [runFiles, if_neg (by simpa using h.1)]
    exact ih h.2

theorem runTasks_no_match {c : Ctx} {tn ovn : String} {spec : OutputSpec}
    {g : List TaskRecord} (h : hasMatchFor g tn ovn = false) :
    runTasks c tn ovn spec g = Option.some (Except.ok []) := by
  induction g with
  | nil => rfl
  | cons t rest ih =>
    rw [hasMatchFor, List.any_cons, Bool.or_eq_false_iff] at h
    obtain ⟨h1, h2⟩ := h
    rw [runTasks]
    by_cases ht : t.task_name = tn
    · rw [if_pos ht]
      simp only [ht] at h1
      simp only [beq_self_eq_true, Bool.true_and] at h1
      rw [runFiles_no_match h1, ih h2]
      exact rSeq_nil_left _
    · rw [if_neg ht]
      exact ih h2

theorem runVars_append (c : Ctx) (g : List TaskRecord) (tn : String)
    (a b : List (String × OutputSpec)) :
    runVars c g tn (a ++ b) = rSeq (runVars c g tn a) (runVars c g tn b) := by
  induction a with
  | nil => rw [List.nil_append, runVars]; exact (rSeq_nil_left _).symm
  | cons ov rest ih => rw [List.cons_append, runVars, runVars, ih, rSeq_assoc]

theorem organize_append (c : Ctx) (a b : OutDef) (g : List TaskRecord) :
    organize_output c (a ++ b) g =
      rSeq (organize_output c a g) (organize_output c b g) := by
  induction a with
  | nil => rw [List.nil_append, organize_output]; exact (rSeq_nil_left _).symm
  | cons td rest ih =>
    rw [List.cons_append, organize_output, organize_output, ih, rSeq_assoc]

theorem trackEntrySpec_none_tmpl (fuel : Nat) (url : Option String)
    (src : String) (si : List Int) :
    trackEntrySpec fuel Option.none url src si = Option.some Option.none := by
  cases url <;> rfl

theorem track_isSome_iff {fuel : Nat} {tmpl url : Option String} {src : String}
    {si : List Int} {te : Option (String × String)}
    (h : trackEntrySpec fuel tmpl url src si = Option.some te) :
    te.isSome = true ↔ (tmpl.isSome = true ∧ url.isSome = true) := by
  cases tmpl with
  | none =>
    rw [trackEntrySpec_none_tmpl] at h
    cases h
    simp
  | some t =>
    cases url with
    | none =>
      rw [trackEntrySpec_none_url] at h
      cases h
      simp
    | some u =>
      rw [trackEntrySpec] at h
      cases hi : interpret_inline_exp fuel t src si with
      | none => simp only [hi] at h; cases h
      | some r0 =>
        cases r0 with
        | ok x => simp only [hi] at h; cases h; simp
        | error e => simp only [hi] at h; cases h

/-! ## Concrete run fixtures used by the witnesses -/

/-- A sink that places the file at the requested target and resolves every
location to itself as URL. -/
def exSink : Sink :=
  { copy := fun _ t _ => t, get_url := fun u => Option.some u }

/-- A sink that never yields a URL (e.g. purely local placement). -/
def exSinkNoUrl : Sink :=
  { copy := fun _ t _ => t, get_url := fun _ => Option.none }

def exCtx : Ctx := { fuel := 9, out_dir := "/out", soft_link := true, sink := exSink }

def exCtxNoUrl : Ctx :=
  { fuel := 9, out_dir := "/out", soft_link := true, sink := exSinkNoUrl }

/-- The spec §8 concrete scenario's OutputSpec. -/
def exSpecA : OutputSpec :=
  { path := Option.some "align/rep${i}/${basename}"
    table := Option.some "BAM rep${i}"
    ucsc_track := Option.none }

/-- An OutputSpec with no path, a table and a track template. -/
def exSpecB : OutputSpec :=
  { path := Option.none
    table := Option.some "T"
    ucsc_track := Option.some "track ${basename}" }

/-- An OutputSpec with all three fields absent. -/
def exSpecPlain : OutputSpec :=
  { path := Option.none, table := Option.none, ucsc_track := Option.none }

def exGraph : List TaskRecord :=
  [{ task_name := "align", shard_idx := [0, -1, -1]
     out_files := [("bam", "/work/xyz.bam")] }]

def exGraph2 : List TaskRecord :=
  [{ task_name := "align", shard_idx := [0, -1, -1]
     out_files := [("bam", "/work/a.bam")] },
   { task_name := "align", shard_idx := [1, -1, -1]
     out_files := [("bam", "/work/b.bam")] }]

/-- A task graph with a duplicated output-variable name inside one task. -/
def exGraphDup : List TaskRecord :=
  [{ task_name := "t1", shard_idx := [0]
     out_files := [("bam", "/f.bam"), ("bam", "/f.bam")] }]

def exResA : MatchResult :=
  { task_name := "align", out_var_name := "bam", source := "/work/xyz.bam"
    shard_idx := [0, -1, -1]
    path_template := Option.some "align/rep${i}/${basename}"
    table_template := Option.some "BAM rep${i}"
    track_template := Option.none
    dest_candidate := "/out/align/rep0/xyz.bam"
    target_uri := "/out/align/rep0/xyz.bam"
    target_url := Option.some "/out/align/rep0/xyz.bam"
    table_entry := Option.some
      ("/out/align/rep0/xyz.bam", Option.some "/out/align/rep0/xyz.bam", "BAM rep0")
    track_entry := Option.none }

def exResB : MatchResult :=
  { task_name := "align", out_var_name := "bam", source := "/work/xyz.bam"
    shard_idx := [0, -1, -1]
    path_template := Option.none
    table_template := Option.some "T"
    track_template := Option.some "track ${basename}"
    dest_candidate := "/work/xyz.bam"
    target_uri := "/work/xyz.bam"
    target_url := Option.none
    table_entry := Option.some ("/work/xyz.bam", Option.none, "T")
    track_entry := Option.none }

def exRes5a : MatchResult :=
  { task_name := "align", out_var_name := "bam", source := "/work/a.bam"
    shard_idx := [0, -1, -1]
    path_template := Option.some "align/rep${i}/${basename}"
    table_template := Option.some "BAM rep${i}"
    track_template := Option.none
    dest_candidate := "/out/align/rep0/a.bam"
    target_uri := "/out/align/rep0/a.bam"
    target_url := Option.some "/out/align/rep0/a.bam"
    table_entry := Option.some
      ("/out/align/rep0/a.bam", Option.some "/out/align/rep0/a.bam", "BAM rep0")
    track_entry := Option.none }

def exRes5b : MatchResult :=
  { task_name := "align", out_var_name := "bam", source := "/work/b.bam"
    shard_idx := [1, -1, -1]
    path_template := Option.some "align/rep${i}/${basename}"
    table_template := Option.some "BAM rep${i}"
    track_template := Option.none
    dest_candidate := "/out/align/rep1/b.bam"
    target_uri := "/out/align/rep1/b.bam"
    target_url := Option.some "/out/align/rep1/b.bam"
    table_entry := Option.some
      ("/out/align/rep1/b.bam", Option.some "/out/align/rep1/b.bam", "BAM rep1")
    track_entry := Option.none }

def exResDup : MatchResult :=
  { task_name := "t1", out_var_name := "bam", source := "/f.bam"
    shard_idx := [0]
    path_template := Option.none
    table_template := Option.none
    track_template := Option.none
    dest_candidate := "/f.bam"
    target_uri := "/f.bam"
    target_url := Option.some "/f.bam"
    table_entry := Option.none
    track_entry := Option.none }

/-! ## Claims about the output matcher -/

/-- Claim C4: for every match found by organize, the destination candidate
is exactly what spec §4.2 step 1 prescribes — the interpreter's result for
the path template joined onto the reorganization root directory when
`path` is present, and the matched file's original location unchanged when
it is absent. -/
theorem C4_dest_candidate :
    ∀ (c : Ctx) (out_def : OutDef) (g : List TaskRecord)
      (rs : List MatchResult) (r : MatchResult),
      organize_output c out_def g = Option.some (Except.ok rs) → r ∈ rs →
      destCandidateSpec c.fuel c.out_dir r.path_template r.source r.shard_idx =
        Option.some r.dest_candidate := by
  intro c out_def g rs r h hr
  exact ((organize_ok h).2 r hr).1

/-- Witness for C4: the spec §8 concrete scenario, destination candidate
`align/rep0/xyz.bam` joined under `/out`. -/
theorem C4_witness :
    organize_output exCtx [("align", [("bam", exSpecA)])] exGraph =
        Option.some (Except.ok [exResA]) ∧
      exResA ∈ [exResA] ∧
      destCandidateSpec 9 "/out" (Option.some "align/rep${i}/${basename}")
          "/work/xyz.bam" [0, -1, -1] =
        Option.some "/out/align/rep0/xyz.bam" :=
  ⟨by decide, by simp,
    C4_dest_candidate exCtx [("align", [("bam", exSpecA)])] exGraph [exResA]
      exResA (by decide) (by simp)⟩

/-- Claim C5: organize emits its results exactly in the nested-loop order
the spec states — OutputDefinition declaration order (task, then output
variable), then task-graph traversal order, then output-list order. -/
theorem C5_emission_order :
    ∀ (c : Ctx) (out_def : OutDef) (g : List TaskRecord) (rs : List MatchResult),
      organize_output c out_def g = Option.some (Except.ok rs) →
      rs.map projM = specMatches out_def g :=
  fun _ _ _ _ h => (organize_ok h).1

/-- Witness for C5: two scatter shards of the same task are emitted in
graph traversal order. -/
theorem C5_witness :
    organize_output exCtx [("align", [("bam", exSpecA)])] exGraph2 =
        Option.some (Except.ok [exRes5a, exRes5b]) ∧
      [exRes5a, exRes5b].map projM =
        specMatches [("align", [("bam", exSpecA)])] exGraph2 :=
  ⟨by decide, C5_emission_order exCtx [("align", [("bam", exSpecA)])] exGraph2
    [exRes5a, exRes5b] (by decide)⟩

/-- Claim C6: a track entry is emitted iff `OutputSpec.track` is present
AND a URL was obtained; with no URL there is no track entry while a table
entry (if `table` is present) is still emitted with an absent URL — the
table and track entries are exactly the ones spec §4.2 steps 3-4
prescribe. -/
theorem C6_track_requires_url :
    ∀ (c : Ctx) (out_def : OutDef) (g : List TaskRecord)
      (rs : List MatchResult) (r : MatchResult),
      organize_output c out_def g = Option.some (Except.ok rs) → r ∈ rs →
      trackEntrySpec c.fuel r.track_template r.target_url r.source r.shard_idx =
          Option.some r.track_entry ∧
        tableEntrySpec c.fuel r.table_template r.target_uri r.target_url
          r.source r.shard_idx = Option.some r.table_entry ∧
        (r.track_entry.isSome = true ↔
          (r.track_template.isSome = true ∧ r.target_url.isSome = true)) := by
  intro c out_def g rs r h hr
  obtain ⟨-, -, htb, htr⟩ := (organize_ok h).2 r hr
  exact ⟨htr, htb, track_isSome_iff htr⟩

/-- Witness for C6: a spec with both `table` and `track`, under a sink that
yields no URL — the table entry is emitted with an absent URL and no track
entry is emitted. -/
theorem C6_witness :
    organize_output exCtxNoUrl [("align", [("bam", exSpecB)])] exGraph =
        Option.some (Except.ok [exResB]) ∧
      exResB ∈ [exResB] ∧
      (trackEntrySpec 9 (Option.some "track ${basename}") Option.none
          "/work/xyz.bam" [0, -1, -1] = Option.some Option.none ∧
        tableEntrySpec 9 (Option.some "T") "/work/xyz.bam" Option.none
          "/work/xyz.bam" [0, -1, -1] =
          Option.some (Option.some ("/work/xyz.bam", Option.none, "T")) ∧
        ((Option.none : Option (String × String)).isSome = true ↔
          ((Option.some "track ${basename}").isSome = true ∧
            (Option.none : Option String).isSome = true))) :=
  ⟨by decide, by simp,
    C6_track_requires_url exCtxNoUrl [("align", [("bam", exSpecB)])] exGraph
      [exResB] exResB (by decide) (by simp)⟩

/-- Claim C7: matches are never deduplicated or retried — every matched
(OutputSpec, TaskRecord, file) occurrence yields exactly one placement
record, so each triple occurs in the emitted trace exactly as often as it
occurs in the nested-loop enumeration. -/
theorem C7_independent_placements :
    ∀ (c : Ctx) (out_def : OutDef) (g : List TaskRecord)
      (rs : List MatchResult) (trip : String × String × String),
      organize_output c out_def g = Option.some (Except.ok rs) →
      (rs.map projM).count trip = (specMatches out_def g).count trip := by
  intro c out_def g rs trip h
  rw [(organize_ok h).1]

/-- Witness for C7: a duplicated output-variable name within one
TaskRecord is placed twice, independently. -/
theorem C7_witness :
    organize_output exCtx [("t1", [("bam", exSpecPlain)])] exGraphDup =
        Option.some (Except.ok [exResDup, exResDup]) ∧
      ([exResDup, exResDup].map projM).count ("t1", "bam", "/f.bam") =
        (specMatches [("t1", [("bam", exSpecPlain)])] exGraphDup).count
          ("t1", "bam", "/f.bam") ∧
      (specMatches [("t1", [("bam", exSpecPlain)])] exGraphDup).count
          ("t1", "bam", "/f.bam") = 2 :=
  ⟨by decide,
    C7_independent_placements exCtx [("t1", [("bam", exSpecPlain)])] exGraphDup
      [exResDup, exResDup] ("t1", "bam", "/f.bam") (by decide),
    by decide⟩

/-- Claim C9: an OutputDefinition entry that matches zero TaskRecord
outputs produces zero PlacementResults, raises no error, and leaves the
rest of the run unchanged. -/
theorem C9_zero_match_entry :
    ∀ (c : Ctx) (g : List TaskRecord) (tn ovn : String) (spec : OutputSpec)
      (d1 d2 : OutDef) (vs1 vs2 : List (String × OutputSpec)),
      hasMatchFor g tn ovn = false →
      runTasks c tn ovn spec g = Option.some (Except.ok []) ∧
      organize_output c (d1 ++ (tn, vs1 ++ (ovn, spec) :: vs2) :: d2) g =
        organize_output c (d1 ++ (tn, vs1 ++ vs2) :: d2) g := by
  intro c g tn ovn spec d1 d2 vs1 vs2 h
  refine ⟨runTasks_no_match h, ?_⟩
  have hmid : runVars c g tn ((ovn, spec) :: vs2) = runVars c g tn vs2 := by
    rw [runVars]
    dsimp only
    rw [runTasks_no_match h]
    exact rSeq_nil_left _
  have houter : organize_output c ((tn, vs1 ++ (ovn, spec) :: vs2) :: d2) g =
      organize_output c ((tn, vs1 ++ vs2) :: d2) g := by
    rw [organize_output, organize_output]
    dsimp only
    rw [runVars_append, runVars_append, hmid]
  rw [organize_append, organize_append, houter]

/-- Witness for C9: a definition entry naming a task/output pair absent
from the graph yields no placements and drops out of the run. -/
theorem C9_witness :
    hasMatchFor exGraph "peak" "opt" = false ∧
      (runTasks exCtx "peak" "opt" exSpecPlain exGraph =
          Option.some (Except.ok []) ∧
        organize_output exCtx
            ([] ++ ("peak", [] ++ ("opt", exSpecPlain) :: []) :: []) exGraph =
          organize_output exCtx ([] ++ ("peak", [] ++ []) :: []) exGraph) :=
  ⟨rfl, C9_zero_match_entry exCtx exGraph "peak" "opt" exSpecPlain [] [] [] [] rfl⟩

end CrooSpec
